import Mathlib

/-!
Verification of the remittance decoder and the transaction deserialization
helpers of `comdirect_client/models.py`, via a shallow embedding.

Strings are modelled as `List Char`; Python expressions that can raise are
modelled in `PyM := Except PyErr`, so that a result `.ok _` means the Python
code returns normally and `.error _` means it raises.
-/

namespace Comdirect

/-- Exceptions the modelled Python expressions can raise. -/
inductive PyErr where
  | indexError
  | valueError
  | keyError
  | typeError
  deriving DecidableEq

/-- Result of a Python computation: a value, or a raised exception. -/
abbrev PyM (α : Type) := Except PyErr α

/-- Python `str.isspace` on the ASCII whitespace characters. -/
def pyIsSpace (c : Char) : Bool :=
  c == ' ' || c == '\t' || c == '\n' || c == '\r' || c == '\x0b' || c == '\x0c'

/-- Python `str.isdigit` restricted to the ASCII decimal digits -- exactly
the characters `int()` accepts. The real `str.isdigit()` is wider (see
`pyIsDigitU` below); the functions phrased with this predicate describe the
decoder over inputs whose digit characters are all decimal. -/
def pyIsDigit (c : Char) : Bool :=
  '0' ≤ c && c ≤ '9'

/-- Numeric value of an ASCII digit. -/
def digitVal (c : Char) : Nat := c.toNat - '0'.toNat

/-- Python `text[a:b]` for `0 ≤ a ≤ b` (slices clamp at the string end). -/
def slice (l : List Char) (a b : Nat) : List Char :=
  (l.drop a).take (b - a)

/-- Python `str.strip()`: remove whitespace from both ends. -/
def pyStrip (l : List Char) : List Char :=
  ((l.dropWhile pyIsSpace).reverse.dropWhile pyIsSpace).reverse

/-- Checked character indexing `text[i]`; out of range raises IndexError. -/
def getC (l : List Char) (i : Nat) : PyM Char :=
  match l[i]? with
  | some c => .ok c
  | none => .error .indexError

/-- Total character lookup used on the specification side of statements. -/
def charAt (l : List Char) (i : Nat) : Char := (l[i]?).getD 'x'

/-- Python `int()` on an all-digit string, the only shape this program applies
it to; anything else raises ValueError. -/
def pyInt (l : List Char) : PyM Nat :=
  if !l.isEmpty && l.all pyIsDigit then
    .ok (l.foldl (fun acc c => 10 * acc + digitVal c) 0)
  else
    .error .valueError

/-- models.py lines 130-133: the loop body of the first-marker search,
`for i in range(length - 2)`, looking for whitespace followed by "01".
`fuel` counts the remaining iterations of the range. -/
def findFirst01Aux (text : List Char) : Nat → Nat → PyM (Option Nat)
  | _, 0 => .ok none
  | i, fuel + 1 =>
    match getC text i with
    | .error e => .error e
    | .ok c =>
      if pyIsSpace c && slice text (i+1) (i+3) == ['0', '1'] then .ok (some (i+1))
      else findFirst01Aux text (i+1) fuel

/-- models.py lines 126-133: locate the first "01" marker (at position 0, or
just after a whitespace character); `.ok none` models `first_pos == -1`. -/
def findFirst01 (text : List Char) : PyM (Option Nat) :=
  if 2 ≤ text.length && slice text 0 2 == ['0', '1'] then .ok (some 0)
  else findFirst01Aux text 0 (text.length - 2)

/-- models.py lines 157-165: long-format inner loop, scanning positions
`[pos, pos + fuel)` for a digit pair whose value equals the expected marker. -/
def longScanAux (text : List Char) (expected : Nat) : Nat → Nat → PyM (Option Nat)
  | _, 0 => .ok none
  | pos, fuel + 1 =>
    if pos + 1 < text.length then
      match getC text pos with
      | .error e => .error e
      | .ok c1 =>
        if pyIsDigit c1 then
          match getC text (pos+1) with
          | .error e => .error e
          | .ok c2 =>
            if pyIsDigit c2 then
              match pyInt (slice text pos (pos+2)) with
              | .error e => .error e
              | .ok mv =>
                if mv == expected then .ok (some pos)
                else longScanAux text expected (pos+1) fuel
            else longScanAux text expected (pos+1) fuel
        else longScanAux text expected (pos+1) fuel
    else longScanAux text expected (pos+1) fuel

/-- models.py lines 147-168: long-format marker walk
(`while expected_marker <= 99`); `fuel = 100 - expected_marker`, and the
accumulator holds the marker positions in reverse order. -/
def longWalk (text : List Char) : Nat → Nat → Nat → List Nat → PyM (List Nat)
  | 0, _, _, acc => .ok acc.reverse
  | fuel + 1, expectedPos, expected, acc =>
    let searchStart := max (acc.headD 0 + 20) (expectedPos - 15)
    let searchEnd := min (text.length - 1) (expectedPos + 15)
    match longScanAux text expected searchStart (searchEnd - searchStart) with
    | .error e => .error e
    | .ok (some pos) => longWalk text fuel (pos + 37) (expected + 1) (pos :: acc)
    | .ok none => .ok acc.reverse

/-- models.py lines 176-188: short-format inner loop, scanning positions
`[pos, pos + fuel)` (the range runs to `length - 1`) for a digit pair that is
at position 0 or preceded by whitespace and equals the expected marker. -/
def shortScanAux (text : List Char) (expected : Nat) : Nat → Nat → PyM (Option Nat)
  | _, 0 => .ok none
  | pos, fuel + 1 =>
    match getC text pos with
    | .error e => .error e
    | .ok c1 =>
      if pyIsDigit c1 then
        match getC text (pos+1) with
        | .error e => .error e
        | .ok c2 =>
          if pyIsDigit c2 then
            match (if pos == 0 then (.ok true : PyM Bool) else
                    match getC text (pos - 1) with
                    | .error e => .error e
                    | .ok c0 => .ok (pyIsSpace c0)) with
            | .error e => .error e
            | .ok pre =>
              if pre then
                match pyInt (slice text pos (pos+2)) with
                | .error e => .error e
                | .ok mv =>
                  if mv == expected then .ok (some pos)
                  else shortScanAux text expected (pos+1) fuel
              else shortScanAux text expected (pos+1) fuel
          else shortScanAux text expected (pos+1) fuel
      else shortScanAux text expected (pos+1) fuel

/-- models.py lines 172-191: short-format marker walk. -/
def shortWalk (text : List Char) : Nat → Nat → List Nat → PyM (List Nat)
  | 0, _, acc => .ok acc.reverse
  | fuel + 1, expected, acc =>
    let searchStart := acc.headD 0 + 2
    match shortScanAux text expected searchStart ((text.length - 1) - searchStart) with
    | .error e => .error e
    | .ok (some pos) => shortWalk text fuel (expected + 1) (pos :: acc)
    | .ok none => .ok acc.reverse

/-- models.py lines 193-200: the text between consecutive markers (string end
for the last one), trimmed; lines that trim to empty are dropped. -/
def extractLines (text : List Char) : List Nat → List (List Char)
  | [] => []
  | pos :: rest =>
    let stop := match rest with
      | [] => text.length
      | q :: _ => q
    let line := pyStrip (slice text (pos + 2) stop)
    if line.isEmpty then extractLines text rest
    else line :: extractLines text rest

/-- models.py line 202: `lines if lines else [text]`. -/
def linesOrFallback (text : List Char) (ps : List Nat) : List (List Char) :=
  let lines := extractLines text ps
  if lines.isEmpty then [text] else lines

/-- models.py lines 103-202: `_parse_remittance_info`. -/
def parseRemittanceInfo (remittance : Option (List Char)) : PyM (List (List Char)) :=
  match remittance with
  | none => .ok []
  | some r =>
    if r.isEmpty then .ok []
    else
      let text := pyStrip r
      if text.isEmpty then .ok []
      else
        match findFirst01 text with
        | .error e => .error e
        | .ok none => .ok [text]
        | .ok (some firstPos) =>
          let walk :=
            if 100 < text.length then longWalk text 98 (firstPos + 37) 2 [firstPos]
            else shortWalk text 98 2 [firstPos]
          match walk with
          | .error e => .error e
          | .ok ps => .ok (linesOrFallback text ps)

/-! A refined character model. Python's `str.isdigit()` is true not only for
decimal digits but for every character with Numeric_Type=Digit (such as the
superscript '²'), while `int()` accepts decimal digits only and raises
ValueError otherwise. The scans above, phrased with the decimal-only
`pyIsDigit`, cannot reach that error path; the `...U` variants below repeat
the same code of models.py with the wider isdigit predicate, so that
`int(text[pos:pos+2])` at models.py lines 159 and 183 can be reached with a
non-decimal digit pair and raise. -/

/-- Python `str.isdigit` over the modelled character fragment: the ASCII
decimal digits together with the Latin-1 and superscript/subscript digit
characters (Numeric_Type=Digit). The full Unicode table is larger; this
fragment exposes that isdigit() is strictly wider than what int() accepts. -/
def pyIsDigitU (c : Char) : Bool :=
  pyIsDigit c || c == '¹' || c == '²' || c == '³' || c == '⁰' ||
    ('⁴' ≤ c && c ≤ '⁹') || ('₀' ≤ c && c ≤ '₉')

/-- The string holds no digit-but-not-decimal character: every character
satisfying the full isdigit predicate is a plain ASCII decimal digit, so
every digit pair the marker scans can hand to int() parses. -/
def decimalOnly (l : List Char) : Bool :=
  l.all (fun c => !pyIsDigitU c || pyIsDigit c)

/-- models.py lines 157-165 with the faithful digit predicate: the guard
passes on any isdigit pair, and `int()` then raises ValueError on a
non-decimal one. -/
def longScanAuxU (text : List Char) (expected : Nat) : Nat → Nat → PyM (Option Nat)
  | _, 0 => .ok none
  | pos, fuel + 1 =>
    if pos + 1 < text.length then
      match getC text pos with
      | .error e => .error e
      | .ok c1 =>
        if pyIsDigitU c1 then
          match getC text (pos+1) with
          | .error e => .error e
          | .ok c2 =>
            if pyIsDigitU c2 then
              match pyInt (slice text pos (pos+2)) with
              | .error e => .error e
              | .ok mv =>
                if mv == expected then .ok (some pos)
                else longScanAuxU text expected (pos+1) fuel
            else longScanAuxU text expected (pos+1) fuel
        else longScanAuxU text expected (pos+1) fuel
    else longScanAuxU text expected (pos+1) fuel

/-- models.py lines 147-168 with the faithful digit predicate. -/
def longWalkU (text : List Char) : Nat → Nat → Nat → List Nat → PyM (List Nat)
  | 0, _, _, acc => .ok acc.reverse
  | fuel + 1, expectedPos, expected, acc =>
    let searchStart := max (acc.headD 0 + 20) (expectedPos - 15)
    let searchEnd := min (text.length - 1) (expectedPos + 15)
    match longScanAuxU text expected searchStart (searchEnd - searchStart) with
    | .error e => .error e
    | .ok (some pos) => longWalkU text fuel (pos + 37) (expected + 1) (pos :: acc)
    | .ok none => .ok acc.reverse

/-- models.py lines 176-188 with the faithful digit predicate. -/
def shortScanAuxU (text : List Char) (expected : Nat) : Nat → Nat → PyM (Option Nat)
  | _, 0 => .ok none
  | pos, fuel + 1 =>
    match getC text pos with
    | .error e => .error e
    | .ok c1 =>
      if pyIsDigitU c1 then
        match getC text (pos+1) with
        | .error e => .error e
        | .ok c2 =>
          if pyIsDigitU c2 then
            match (if pos == 0 then (.ok true : PyM Bool) else
                    match getC text (pos - 1) with
                    | .error e => .error e
                    | .ok c0 => .ok (pyIsSpace c0)) with
            | .error e => .error e
            | .ok pre =>
              if pre then
                match pyInt (slice text pos (pos+2)) with
                | .error e => .error e
                | .ok mv =>
                  if mv == expected then .ok (some pos)
                  else shortScanAuxU text expected (pos+1) fuel
              else shortScanAuxU text expected (pos+1) fuel
          else shortScanAuxU text expected (pos+1) fuel
      else shortScanAuxU text expected (pos+1) fuel

/-- models.py lines 172-191 with the faithful digit predicate. -/
def shortWalkU (text : List Char) : Nat → Nat → List Nat → PyM (List Nat)
  | 0, _, acc => .ok acc.reverse
  | fuel + 1, expected, acc =>
    let searchStart := acc.headD 0 + 2
    match shortScanAuxU text expected searchStart ((text.length - 1) - searchStart) with
    | .error e => .error e
    | .ok (some pos) => shortWalkU text fuel (expected + 1) (pos :: acc)
    | .ok none => .ok acc.reverse

/-- models.py lines 103-202, `_parse_remittance_info`, under the faithful
digit predicate; the first-marker search and the line extraction involve no
digit test and are shared with the decimal-model pipeline. -/
def parseRemittanceInfoU (remittance : Option (List Char)) : PyM (List (List Char)) :=
  match remittance with
  | none => .ok []
  | some r =>
    if r.isEmpty then .ok []
    else
      let text := pyStrip r
      if text.isEmpty then .ok []
      else
        match findFirst01 text with
        | .error e => .error e
        | .ok none => .ok [text]
        | .ok (some firstPos) =>
          let walk :=
            if 100 < text.length then longWalkU text 98 (firstPos + 37) 2 [firstPos]
            else shortWalkU text 98 2 [firstPos]
          match walk with
          | .error e => .error e
          | .ok ps => .ok (linesOrFallback text ps)

/-- JSON-like values as delivered by the API layer, restricted to the shapes
the modelled deserialization code touches. -/
inductive JVal where
  | null
  | s (v : List Char)
  | b (v : Bool)
  | obj (fields : List (List Char × JVal))

/-- Python `k in d` style lookup: `some v` exactly when the key is present. -/
def dictGet (d : List (List Char × JVal)) (k : List Char) : Option JVal :=
  match d with
  | [] => none
  | (k', v) :: rest => if k' == k then some v else dictGet rest k

/-- Python `data.get(k)`: None when the key is absent. -/
def pyGet (d : List (List Char × JVal)) (k : List Char) : JVal :=
  match dictGet d k with
  | some v => v
  | none => .null

/-- Python `data.get(k, dflt)`. -/
def pyGetD (d : List (List Char × JVal)) (k : List Char) (dflt : JVal) : JVal :=
  match dictGet d k with
  | some v => v
  | none => dflt

/-- Python truthiness on the modelled values. -/
def truthy : JVal → Bool
  | .null => false
  | .s v => !v.isEmpty
  | .b v => v
  | .obj fs => !fs.isEmpty

/-- Python `a or b`: the left operand if truthy, otherwise the right one. -/
def pyOr (a b : JVal) : JVal := if truthy a then a else b

/-- models.py lines 35-41: the AccountInformation record; field values are
stored exactly as delivered (absent optional keys are stored as None). -/
structure AccountInformation where
  holderName : JVal
  iban : JVal
  bic : JVal

/-- models.py lines 43-46: `AccountInformation.from_dict`;
`data["holderName"]` raises KeyError when the key is absent. -/
def AccountInformation.fromDict (d : List (List Char × JVal)) : PyM AccountInformation :=
  match dictGet d ("holderName".toList) with
  | none => .error .keyError
  | some h => .ok ⟨h, pyGet d ("iban".toList), pyGet d ("bic".toList)⟩

/-- Python subscripting of a non-dict raises TypeError; extract the entries of
a dict-shaped value. -/
def asObj : JVal → PyM (List (List Char × JVal))
  | .obj fs => .ok fs
  | _ => .error .typeError

/-- models.py lines 261-265: the `debtor=` argument of `Transaction.from_dict`,
`AccountInformation.from_dict(data.get("debtor") or data.get("deptor", {}))
 if data.get("debtor") or data.get("deptor") else None`. -/
def txDebtor (data : List (List Char × JVal)) : PyM (Option AccountInformation) :=
  if truthy (pyGet data ("debtor".toList)) || truthy (pyGet data ("deptor".toList)) then
    match asObj (pyOr (pyGet data ("debtor".toList)) (pyGetD data ("deptor".toList) (.obj []))) with
    | .error e => .error e
    | .ok fs =>
      match AccountInformation.fromDict fs with
      | .error e => .error e
      | .ok ai => .ok (some ai)
  else .ok none

/-- models.py line 247: the remittanceLines computation of
`Transaction.from_dict`, `_parse_remittance_info(data.get("remittanceInfo"))`. -/
def txRemittanceLines (data : List (List Char × JVal)) : PyM (List (List Char)) :=
  match pyGet data ("remittanceInfo".toList) with
  | .null => parseRemittanceInfo none
  | .s v => parseRemittanceInfo (some v)
  | v => if truthy v then .error .typeError else parseRemittanceInfo none

/-! Specification-side definitions, written from the claims for comparison
with the code-side functions above. -/

/-- Claim side (C2): a leading "01" marker is locatable, i.e. the text starts
with "01" or "01" occurs immediately after a whitespace character. -/
def hasLeadingMarker (t : List Char) : Bool :=
  (2 ≤ t.length && slice t 0 2 == ['0', '1']) ||
  (List.range t.length).any (fun i => pyIsSpace (charAt t i) && slice t (i+1) (i+3) == ['0', '1'])

/-- Value of the two-digit span starting at q (digits assumed). -/
def val2 (text : List Char) (q : Nat) : Nat :=
  10 * digitVal (charAt text q) + digitVal (charAt text (q+1))

/-- Acceptance condition of the wide-layout scan at position q. -/
def wideHit (text : List Char) (expected q : Nat) : Bool :=
  decide (q + 1 < text.length) && pyIsDigit (charAt text q) &&
    pyIsDigit (charAt text (q+1)) && (val2 text q == expected)

/-- Acceptance condition of the narrow-layout scan at position q. -/
def narrowHit (text : List Char) (expected q : Nat) : Bool :=
  decide (q + 1 < text.length) && pyIsDigit (charAt text q) &&
    pyIsDigit (charAt text (q+1)) &&
    (q == 0 || pyIsSpace (charAt text (q - 1))) && (val2 text q == expected)

/-- Claim side (C5): the line texts as the claim states them -- for each marker
paired with the next marker position (string end for the last), the substring
strictly between the marker's two digits and that bound, trimmed, with lines
that trim to empty dropped. -/
def specLines (text : List Char) (ps : List Nat) : List (List Char) :=
  ((ps.zip (ps.drop 1 ++ [text.length])).map
    (fun pe => pyStrip (slice text (pe.1 + 2) pe.2))).filter (fun l => !l.isEmpty)

/-- Claim side (C6): the decode pipeline with an explicitly chosen layout, used
to state that the layout choice depends only on the trimmed length. -/
def layoutDecode (useWide : Bool) (text : List Char) : PyM (List (List Char)) :=
  match findFirst01 text with
  | .error e => .error e
  | .ok none => .ok [text]
  | .ok (some firstPos) =>
    match (if useWide then longWalk text 98 (firstPos + 37) 2 [firstPos]
           else shortWalk text 98 2 [firstPos]) with
    | .error e => .error e
    | .ok ps => .ok (linesOrFallback text ps)

/-! Basic lemmas about the character-access primitives. -/

theorem getC_eq_ok {l : List Char} {i : Nat} {c : Char} :
    getC l i = .ok c ↔ l[i]? = some c := by
  cases h : l[i]? <;> simp [getC, h]

theorem getC_ok_of_lt {l : List Char} {i : Nat} (h : i < l.length) :
    getC l i = .ok (charAt l i) := by
  simp [getC, charAt, List.getElem?_eq_getElem h]

theorem lt_of_getC {l : List Char} {i : Nat} {c : Char} (h : getC l i = .ok c) :
    i < l.length := by
  rw [getC_eq_ok] at h
  obtain ⟨hlt, -⟩ := List.getElem?_eq_some.mp h
  exact hlt

theorem charAt_of_getC {l : List Char} {i : Nat} {c : Char} (h : getC l i = .ok c) :
    charAt l i = c := by
  rw [getC_eq_ok] at h
  simp [charAt, h]

theorem slice_pair : ∀ (l : List Char) (q : Nat), q + 1 < l.length →
    slice l q (q+2) = [charAt l q, charAt l (q+1)]
  | [], _, h => by simp at h
  | [_], 0, h => by simp at h
  | _ :: _ :: _, 0, _ => by simp [slice, charAt]
  | a :: t, q+1, h => by
    have ih := slice_pair t q (by simpa using h)
    simpa [slice, charAt] using ih

theorem pyInt_pair {c1 c2 : Char} (h1 : pyIsDigit c1 = true) (h2 : pyIsDigit c2 = true) :
    pyInt [c1, c2] = .ok (10 * digitVal c1 + digitVal c2) := by
  simp [pyInt, h1, h2]

theorem pyInt_slice {l : List Char} {q : Nat} (h : q + 1 < l.length)
    (h1 : pyIsDigit (charAt l q) = true) (h2 : pyIsDigit (charAt l (q+1)) = true) :
    pyInt (slice l q (q+2)) = .ok (val2 l q) := by
  rw [slice_pair l q h, pyInt_pair h1 h2, val2]

/-! Totality of each loop of the decoder. -/

theorem findFirst01Aux_total (text : List Char) :
    ∀ fuel i, i + fuel + 2 ≤ text.length → ∃ o, findFirst01Aux text i fuel = .ok o := by
  intro fuel
  induction fuel with
  | zero => exact fun i _ => ⟨none, rfl⟩
  | succ n ih =>
    intro i h
    have hi : i < text.length := by omega
    have hg := getC_ok_of_lt hi
    cases hc : (pyIsSpace (charAt text i) && slice text (i+1) (i+3) == ['0', '1']) with
    | true => exact ⟨some (i+1), by simp [findFirst01Aux, hg, hc]⟩
    | false =>
      obtain ⟨o, ho⟩ := ih (i+1) (by omega)
      exact ⟨o, by simp [findFirst01Aux, hg, hc, ho]⟩

theorem findFirst01_total (text : List Char) : ∃ o, findFirst01 text = .ok o := by
  rw [findFirst01]
  by_cases hc : (2 ≤ text.length && slice text 0 2 == ['0', '1']) = true
  · exact ⟨some 0, by simp [hc]⟩
  · rw [if_neg hc]
    rcases Nat.lt_or_ge text.length 2 with hlen | hlen
    · have hz : text.length - 2 = 0 := by omega
      rw [hz]; exact ⟨none, rfl⟩
    · exact findFirst01Aux_total text (text.length - 2) 0 (by omega)

theorem mem_pyStrip_subset {l : List Char} {c : Char} (h : c ∈ pyStrip l) : c ∈ l := by
  rw [pyStrip, List.mem_reverse] at h
  have h1 := (List.dropWhile_suffix pyIsSpace).sublist.subset h
  rw [List.mem_reverse] at h1
  exact (List.dropWhile_suffix pyIsSpace).sublist.subset h1

theorem decimalOnly_pyStrip {l : List Char} (h : decimalOnly l = true) :
    decimalOnly (pyStrip l) = true := by
  rw [decimalOnly, List.all_eq_true] at h ⊢
  exact fun c hc => h c (mem_pyStrip_subset hc)

theorem decimal_of_digitU {l : List Char} (hdec : decimalOnly l = true)
    {q : Nat} (hq : q < l.length) (hd : pyIsDigitU (charAt l q) = true) :
    pyIsDigit (charAt l q) = true := by
  have hmem : charAt l q ∈ l := by
    rw [charAt, List.getElem?_eq_getElem hq]
    exact List.getElem_mem hq
  have hall := List.all_eq_true.mp hdec _ hmem
  rw [hd] at hall
  simpa using hall

theorem longScanAuxU_total (text : List Char) (expected : Nat)
    (hdec : decimalOnly text = true) :
    ∀ fuel pos, ∃ o, longScanAuxU text expected pos fuel = .ok o := by
  intro fuel
  induction fuel with
  | zero => exact fun _ => ⟨none, rfl⟩
  | succ n ih =>
    intro pos
    by_cases hl : pos + 1 < text.length
    · have h1 : pos < text.length := by omega
      have hg1 := getC_ok_of_lt h1
      have hg2 := getC_ok_of_lt hl
      cases hd1 : pyIsDigitU (charAt text pos) with
      | false =>
        obtain ⟨o, ho⟩ := ih (pos+1)
        exact ⟨o, by simp [longScanAuxU, hl, hg1, hd1, ho]⟩
      | true =>
        cases hd2 : pyIsDigitU (charAt text (pos+1)) with
        | false =>
          obtain ⟨o, ho⟩ := ih (pos+1)
          exact ⟨o, by simp [longScanAuxU, hl, hg1, hg2, hd1, hd2, ho]⟩
        | true =>
          have hpi := pyInt_slice hl (decimal_of_digitU hdec h1 hd1)
            (decimal_of_digitU hdec hl hd2)
          by_cases hmv : val2 text pos = expected
          · exact ⟨some pos, by simp [longScanAuxU, hl, hg1, hg2, hd1, hd2, hpi, hmv]⟩
          · obtain ⟨o, ho⟩ := ih (pos+1)
            exact ⟨o, by simp [longScanAuxU, hl, hg1, hg2, hd1, hd2, hpi, hmv, ho]⟩
    · obtain ⟨o, ho⟩ := ih (pos+1)
      exact ⟨o, by simp [longScanAuxU, hl, ho]⟩

theorem shortScanAuxU_total (text : List Char) (expected : Nat)
    (hdec : decimalOnly text = true) :
    ∀ fuel pos, pos + fuel + 1 ≤ text.length → ∃ o, shortScanAuxU text expected pos fuel = .ok o := by
  intro fuel
  induction fuel with
  | zero => exact fun _ _ => ⟨none, rfl⟩
  | succ n ih =>
    intro pos h
    have h1 : pos < text.length := by omega
    have hl : pos + 1 < text.length := by omega
    have hg1 := getC_ok_of_lt h1
    have hg2 := getC_ok_of_lt hl
    cases hd1 : pyIsDigitU (charAt text pos) with
    | false =>
      obtain ⟨o, ho⟩ := ih (pos+1) (by omega)
      exact ⟨o, by simp [shortScanAuxU, hg1, hd1, ho]⟩
    | true =>
      cases hd2 : pyIsDigitU (charAt text (pos+1)) with
      | false =>
        obtain ⟨o, ho⟩ := ih (pos+1) (by omega)
        exact ⟨o, by simp [shortScanAuxU, hg1, hg2, hd1, hd2, ho]⟩
      | true =>
        have hpi := pyInt_slice hl (decimal_of_digitU hdec h1 hd1)
          (decimal_of_digitU hdec hl hd2)
        by_cases hp0 : pos = 0
        · subst hp0
          by_cases hmv : val2 text 0 = expected
          · exact ⟨some 0, by simp [shortScanAuxU, hg1, hg2, hd1, hd2, hpi, hmv]⟩
          · obtain ⟨o, ho⟩ := ih 1 (by omega)
            exact ⟨o, by simp [shortScanAuxU, hg1, hg2, hd1, hd2, hpi, hmv, ho]⟩
        · have h0 : pos - 1 < text.length := by omega
          have hg0 := getC_ok_of_lt h0
          cases hsp : pyIsSpace (charAt text (pos - 1)) with
          | false =>
            obtain ⟨o, ho⟩ := ih (pos+1) (by omega)
            exact ⟨o, by simp [shortScanAuxU, hg1, hg2, hd1, hd2, hp0, hg0, hsp, ho]⟩
          | true =>
            by_cases hmv : val2 text pos = expected
            · exact ⟨some pos, by simp [shortScanAuxU, hg1, hg2, hd1, hd2, hp0, hg0, hsp, hpi, hmv]⟩
            · obtain ⟨o, ho⟩ := ih (pos+1) (by omega)
              exact ⟨o, by simp [shortScanAuxU, hg1, hg2, hd1, hd2, hp0, hg0, hsp, hpi, hmv, ho]⟩

theorem longWalk_step (text : List Char) (n expectedPos expected : Nat) (acc : List Nat) :
    longWalk text (n+1) expectedPos expected acc =
      match longScanAux text expected (max (acc.headD 0 + 20) (expectedPos - 15))
          (min (text.length - 1) (expectedPos + 15) - max (acc.headD 0 + 20) (expectedPos - 15)) with
      | .error e => .error e
      | .ok (some pos) => longWalk text n (pos + 37) (expected + 1) (pos :: acc)
      | .ok none => .ok acc.reverse := rfl

theorem longWalkU_step (text : List Char) (n expectedPos expected : Nat) (acc : List Nat) :
    longWalkU text (n+1) expectedPos expected acc =
      match longScanAuxU text expected (max (acc.headD 0 + 20) (expectedPos - 15))
          (min (text.length - 1) (expectedPos + 15) - max (acc.headD 0 + 20) (expectedPos - 15)) with
      | .error e => .error e
      | .ok (some pos) => longWalkU text n (pos + 37) (expected + 1) (pos :: acc)
      | .ok none => .ok acc.reverse := rfl

theorem longWalkU_total (text : List Char) (hdec : decimalOnly text = true) :
    ∀ fuel expectedPos expected acc, ∃ ps, longWalkU text fuel expectedPos expected acc = .ok ps := by
  intro fuel
  induction fuel with
  | zero => exact fun _ _ acc => ⟨acc.reverse, rfl⟩
  | succ n ih =>
    intro expectedPos expected acc
    obtain ⟨o, ho⟩ := longScanAuxU_total text expected hdec
      ((min (text.length - 1) (expectedPos + 15)) - max (acc.headD 0 + 20) (expectedPos - 15))
      (max (acc.headD 0 + 20) (expectedPos - 15))
    rw [longWalkU_step, ho]
    cases o with
    | none => exact ⟨acc.reverse, rfl⟩
    | some pos => exact ih (pos + 37) (expected + 1) (pos :: acc)

theorem shortWalkU_step (text : List Char) (n expected : Nat) (acc : List Nat) :
    shortWalkU text (n+1) expected acc =
      match shortScanAuxU text expected (acc.headD 0 + 2)
          ((text.length - 1) - (acc.headD 0 + 2)) with
      | .error e => .error e
      | .ok (some pos) => shortWalkU text n (expected + 1) (pos :: acc)
      | .ok none => .ok acc.reverse := rfl

theorem shortWalkU_total (text : List Char) (hdec : decimalOnly text = true) :
    ∀ fuel expected acc, ∃ ps, shortWalkU text fuel expected acc = .ok ps := by
  intro fuel
  induction fuel with
  | zero => exact fun _ acc => ⟨acc.reverse, rfl⟩
  | succ n ih =>
    intro expected acc
    have hscan : ∃ o, shortScanAuxU text expected (acc.headD 0 + 2)
        ((text.length - 1) - (acc.headD 0 + 2)) = .ok o := by
      rcases Nat.eq_zero_or_pos ((text.length - 1) - (acc.headD 0 + 2)) with hz | hp
      · rw [hz]; exact ⟨none, rfl⟩
      · exact shortScanAuxU_total text expected hdec _ _ (by omega)
    obtain ⟨o, ho⟩ := hscan
    rw [shortWalkU_step, ho]
    cases o with
    | none => exact ⟨acc.reverse, rfl⟩
    | some pos => exact ih (expected + 1) (pos :: acc)

/-- C1 counterexample: the decoder is not total. The superscript '²'
satisfies Python str.isdigit(), so the narrow-layout guard passes on the
whitespace-preceded pair "²²", and int("²²") at models.py line 183 raises
ValueError, which propagates out of _parse_remittance_info. -/
theorem parse_superscript_raises_cex :
    pyIsDigitU '²' = true ∧
    pyInt ['²', '²'] = .error .valueError ∧
    parseRemittanceInfoU (some "01abc ²² x".toList) = .error .valueError :=
  ⟨rfl, rfl, rfl⟩

/-- C1 amended: the decoder terminates and returns a list of strings without
raising on the absent input and on every input string none of whose
characters is a digit-but-not-decimal character (every isdigit character is
an ASCII decimal digit); inputs containing such a character (e.g. '²') can
instead raise ValueError at the int() call of the marker scans. -/
theorem parse_total_on_decimal_inputs :
    parseRemittanceInfoU none = .ok [] ∧
    ∀ r : List Char, decimalOnly r = true →
      ∃ ls, parseRemittanceInfoU (some r) = .ok ls := by
  refine ⟨rfl, ?_⟩
  intro r hdec
  by_cases hre : r.isEmpty = true
  · exact ⟨[], by simp [parseRemittanceInfoU, hre]⟩
  · by_cases hte : (pyStrip r).isEmpty = true
    · exact ⟨[], by simp [parseRemittanceInfoU, hre, hte]⟩
    · have hstrip := decimalOnly_pyStrip hdec
      obtain ⟨o, ho⟩ := findFirst01_total (pyStrip r)
      cases o with
      | none => exact ⟨[pyStrip r], by simp [parseRemittanceInfoU, hre, hte, ho]⟩
      | some fp =>
        by_cases hlen : 100 < (pyStrip r).length
        · obtain ⟨ps, hps⟩ := longWalkU_total (pyStrip r) hstrip 98 (fp + 37) 2 [fp]
          exact ⟨linesOrFallback (pyStrip r) ps,
            by simp [parseRemittanceInfoU, hre, hte, ho, hlen, hps]⟩
        · obtain ⟨ps, hps⟩ := shortWalkU_total (pyStrip r) hstrip 98 2 [fp]
          exact ⟨linesOrFallback (pyStrip r) ps,
            by simp [parseRemittanceInfoU, hre, hte, ho, hlen, hps]⟩

/-- C1 amended, witness: a decimal-only input decodes without raising. -/
theorem parse_total_on_decimal_inputs_witness :
    ∃ ls, parseRemittanceInfoU (some "01abc 02xy".toList) = .ok ls :=
  parse_total_on_decimal_inputs.2 "01abc 02xy".toList (by decide)

/-! Properties of `pyStrip` and of the line-extraction phase. -/

theorem dropWhile_dropWhile (p : Char → Bool) :
    ∀ l : List Char, (l.dropWhile p).dropWhile p = l.dropWhile p := by
  intro l
  induction l with
  | nil => rfl
  | cons a t ih =>
    cases h : p a with
    | true => simpa [List.dropWhile_cons, h] using ih
    | false => simp [List.dropWhile_cons, h]

theorem dropWhile_head_not (p : Char → Bool) :
    ∀ {l : List Char} {a : Char} {t : List Char}, l.dropWhile p = a :: t → p a = false := by
  intro l
  induction l with
  | nil => intro a t h; simp at h
  | cons b l' ih =>
    intro a t h
    cases hb : p b with
    | true => rw [List.dropWhile_cons, if_pos (by simp [hb])] at h; exact ih h
    | false =>
      rw [List.dropWhile_cons, if_neg (by simp [hb])] at h
      obtain ⟨rfl, -⟩ := List.cons.inj h
      exact hb

theorem pyStrip_idem (l : List Char) : pyStrip (pyStrip l) = pyStrip l := by
  have hBrev : (pyStrip l).reverse = (l.dropWhile pyIsSpace).reverse.dropWhile pyIsSpace := by
    simp [pyStrip]
  have hdropB : (pyStrip l).dropWhile pyIsSpace = pyStrip l := by
    cases hB : pyStrip l with
    | nil => rfl
    | cons b t =>
      obtain ⟨w, hw⟩ := List.dropWhile_suffix (l := (l.dropWhile pyIsSpace).reverse) pyIsSpace
      have hA : l.dropWhile pyIsSpace = pyStrip l ++ w.reverse := by
        have h2 := congrArg List.reverse hw
        simp [List.reverse_append] at h2
        exact h2.symm
      have hb : pyIsSpace b = false := by
        apply dropWhile_head_not pyIsSpace (l := l) (a := b) (t := t ++ w.reverse)
        rw [hA, hB]; rfl
      simp [List.dropWhile_cons, hb]
  show (((pyStrip l).dropWhile pyIsSpace).reverse.dropWhile pyIsSpace).reverse = pyStrip l
  rw [hdropB, hBrev, dropWhile_dropWhile]
  rfl

theorem extractLines_mem (text : List Char) :
    ∀ ps l, l ∈ extractLines text ps → l ≠ [] ∧ ∃ a b, l = pyStrip (slice text a b) := by
  intro ps
  induction ps with
  | nil => intro l h; simp [extractLines] at h
  | cons p rest ih =>
    intro l h
    simp only [extractLines] at h
    split at h
    · exact ih l h
    · rcases List.mem_cons.mp h with hl | hl
      · subst hl
        refine ⟨?_, p + 2, _, rfl⟩
        intro hnil
        rename_i hne
        exact hne (by rw [hnil]; rfl)
      · exact ih l hl

theorem linesOrFallback_props (text : List Char) (ht : text ≠ [])
    (hid : pyStrip text = text) (ps : List Nat) :
    linesOrFallback text ps ≠ [] ∧ ∀ l ∈ linesOrFallback text ps, l ≠ [] ∧ pyStrip l = l := by
  unfold linesOrFallback
  by_cases he : (extractLines text ps).isEmpty = true
  · rw [if_pos he]
    exact ⟨by simp, by intro l hl; rw [List.mem_singleton] at hl; subst hl; exact ⟨ht, hid⟩⟩
  · rw [if_neg he]
    constructor
    · intro hnil; exact he (by rw [hnil]; rfl)
    · intro l hl
      obtain ⟨hne, a, b, hsl⟩ := extractLines_mem text ps l hl
      exact ⟨hne, by rw [hsl]; exact pyStrip_idem _⟩

/-- C9 counterexample: an input whose whitespace-trim is non-empty on which
the decoder raises ValueError instead of returning a list: the digit pair
"²²" passes the isdigit guards and int() raises at models.py line 183. -/
theorem parse_lines_superscript_cex :
    pyStrip "01ab ²² cd".toList ≠ [] ∧
    parseRemittanceInfoU (some "01ab ²² cd".toList) = .error .valueError :=
  ⟨by decide, rfl⟩

/-- C9 amended: for every input whose whitespace-trim is non-empty and that
contains no digit-but-not-decimal character, the decoder returns (without
raising) a non-empty list in which every line is non-empty and equal to its
own trim; an input with such a character (e.g. '²') can raise instead. -/
theorem parse_lines_nonempty_trimmed_decimal (r : List Char)
    (hdec : decimalOnly r = true) (h : pyStrip r ≠ []) :
    ∃ ls, parseRemittanceInfoU (some r) = .ok ls ∧ ls ≠ [] ∧
      ∀ l ∈ ls, l ≠ [] ∧ pyStrip l = l := by
  have hre : ¬ (r.isEmpty = true) := by
    intro hr; rw [List.isEmpty_iff] at hr; subst hr; exact h rfl
  have hte : ¬ ((pyStrip r).isEmpty = true) := by
    intro ht; rw [List.isEmpty_iff] at ht; exact h ht
  have hstrip := decimalOnly_pyStrip hdec
  obtain ⟨o, ho⟩ := findFirst01_total (pyStrip r)
  cases o with
  | none =>
    refine ⟨[pyStrip r], by simp [parseRemittanceInfoU, hre, hte, ho], by simp, ?_⟩
    intro l hl
    rw [List.mem_singleton] at hl; subst hl
    exact ⟨h, pyStrip_idem r⟩
  | some fp =>
    have hprops := linesOrFallback_props (pyStrip r) h (pyStrip_idem r)
    by_cases hlen : 100 < (pyStrip r).length
    · obtain ⟨ps, hps⟩ := longWalkU_total (pyStrip r) hstrip 98 (fp + 37) 2 [fp]
      exact ⟨linesOrFallback (pyStrip r) ps,
        by simp [parseRemittanceInfoU, hre, hte, ho, hlen, hps],
        (hprops ps).1, (hprops ps).2⟩
    · obtain ⟨ps, hps⟩ := shortWalkU_total (pyStrip r) hstrip 98 2 [fp]
      exact ⟨linesOrFallback (pyStrip r) ps,
        by simp [parseRemittanceInfoU, hre, hte, ho, hlen, hps],
        (hprops ps).1, (hprops ps).2⟩

/-- C9 amended, witness at a concrete decimal-only input. -/
theorem parse_lines_nonempty_trimmed_decimal_witness :
    ∃ ls, parseRemittanceInfoU (some ('h' :: 'i' :: [])) = .ok ls ∧ ls ≠ [] ∧
      ∀ l ∈ ls, l ≠ [] ∧ pyStrip l = l :=
  parse_lines_nonempty_trimmed_decimal ('h' :: 'i' :: []) (by decide) (by decide)

/-! Claim C2: behaviour when no leading marker is locatable. -/

theorem findFirst01Aux_none (text : List Char)
    (hall : ∀ i, i < text.length →
      (pyIsSpace (charAt text i) && slice text (i+1) (i+3) == ['0', '1']) = false) :
    ∀ fuel i, i + fuel + 2 ≤ text.length → findFirst01Aux text i fuel = .ok none := by
  intro fuel
  induction fuel with
  | zero => intro i _; rfl
  | succ n ih =>
    intro i h
    have hi : i < text.length := by omega
    have hg := getC_ok_of_lt hi
    have hc := hall i hi
    simp [findFirst01Aux, hg, hc, ih (i+1) (by omega)]

theorem findFirst01_none (text : List Char) (h : hasLeadingMarker text = false) :
    findFirst01 text = .ok none := by
  rw [hasLeadingMarker, Bool.or_eq_false_iff] at h
  obtain ⟨h1, h2⟩ := h
  have hall : ∀ i, i < text.length →
      (pyIsSpace (charAt text i) && slice text (i+1) (i+3) == ['0', '1']) = false := by
    intro i hi
    have := List.any_eq_false.mp h2 i (List.mem_range.mpr hi)
    exact Bool.not_eq_true _ ▸ Bool.eq_false_iff.mpr this
  rw [findFirst01, if_neg (by rw [h1]; simp)]
  rcases Nat.lt_or_ge text.length 2 with hlen | hlen
  · have hz : text.length - 2 = 0 := by omega
    rw [hz]; rfl
  · exact findFirst01Aux_none text hall (text.length - 2) 0 (by omega)

/-- C2 counterexample: the empty string has no locatable leading marker, yet
the decoder returns the empty list there, not the single-element list holding
the trimmed input as the claim states. -/
theorem parse_no_marker_empty_cex :
    hasLeadingMarker (pyStrip []) = false ∧
    parseRemittanceInfo (some []) = .ok [] ∧
    ([] : List (List Char)) ≠ [pyStrip []] :=
  ⟨rfl, rfl, by decide⟩

/-- C2 amended: for every input with no locatable leading marker whose trim is
non-empty, the decoder returns the single-element list holding the trimmed
input; empty and whitespace-only inputs instead give the empty list. -/
theorem parse_no_marker_single_line (r : List Char)
    (h1 : pyStrip r ≠ []) (h2 : hasLeadingMarker (pyStrip r) = false) :
    parseRemittanceInfo (some r) = .ok [pyStrip r] := by
  have hre : ¬ (r.isEmpty = true) := by
    intro hr; rw [List.isEmpty_iff] at hr; subst hr; exact h1 rfl
  have hte : ¬ ((pyStrip r).isEmpty = true) := by
    intro ht; rw [List.isEmpty_iff] at ht; exact h1 ht
  simp [parseRemittanceInfo, hre, hte, findFirst01_none (pyStrip r) h2]

/-- C2 amended, witness at a concrete marker-free input. -/
theorem parse_no_marker_single_line_witness :
    parseRemittanceInfo (some ('a' :: 'b' :: ' ' :: [])) =
      .ok [pyStrip ('a' :: 'b' :: ' ' :: [])] :=
  parse_no_marker_single_line ('a' :: 'b' :: ' ' :: []) (by decide) (by decide)

/-- C7: the two documented example decodes. -/
theorem parse_girokonto_examples :
    parseRemittanceInfo (some "01Uebertrag auf Girokonto".toList) =
      .ok ["Uebertrag auf Girokonto".toList] ∧
    parseRemittanceInfo
        (some "01Uebertrag auf Girokonto 02End-to-End-Ref.: 03nicht angegeben".toList) =
      .ok ["Uebertrag auf Girokonto".toList, "End-to-End-Ref.:".toList,
           "nicht angegeben".toList] :=
  ⟨rfl, rfl⟩

/-! Claim C3: the wide-layout acceptance window. -/

theorem longScanAux_finds (text : List Char) (expected : Nat) :
    ∀ fuel pos p, pos ≤ p → p < pos + fuel →
      wideHit text expected p = true →
      (∀ q, pos ≤ q → q < p → wideHit text expected q = false) →
      longScanAux text expected pos fuel = .ok (some p) := by
  intro fuel
  induction fuel with
  | zero => intro pos p h1 h2 _ _; omega
  | succ n ih =>
    intro pos p hle hlt hhit hnone
    rcases Nat.eq_or_lt_of_le hle with rfl | hlt2
    · simp only [wideHit] at hhit
      obtain ⟨⟨⟨hl, hd1⟩, hd2⟩, hmv⟩ := by simpa [Bool.and_eq_true] using hhit
      have hpi := pyInt_slice hl hd1 hd2
      have h1 : pos < text.length := by omega
      simp [longScanAux, hl, getC_ok_of_lt h1, getC_ok_of_lt hl, hd1, hd2, hpi, hmv]
    · have hq := hnone pos (Nat.le_refl pos) hlt2
      have hrec := ih (pos+1) p (by omega) (by omega) hhit
        (fun q hq1 hq2 => hnone q (by omega) hq2)
      by_cases hl : pos + 1 < text.length
      · have h1 : pos < text.length := by omega
        have hg1 := getC_ok_of_lt h1
        have hg2 := getC_ok_of_lt hl
        cases hd1 : pyIsDigit (charAt text pos) with
        | false => simp [longScanAux, hl, hg1, hd1, hrec]
        | true =>
          cases hd2 : pyIsDigit (charAt text (pos+1)) with
          | false => simp [longScanAux, hl, hg1, hg2, hd1, hd2, hrec]
          | true =>
            have hpi := pyInt_slice hl hd1 hd2
            have hmv : ¬ (val2 text pos = expected) := by
              simp [wideHit, hl, hd1, hd2] at hq
              exact hq
            simp [longScanAux, hl, hg1, hg2, hd1, hd2, hpi, hmv, hrec]
      · simp [longScanAux, hl, hrec]

/-- Input for the C3 counterexample: "01", eighteen filler letters, then a
"02" span at position 20, then filler up to total length 101. -/
def c3text : List Char :=
  '0' :: '1' :: (List.replicate 18 'a' ++ '0' :: '2' :: List.replicate 79 'a')

/-- C3 counterexample: on this wide-layout input the two-digit span "02" sits
exactly at lastMarkerPos + 20 = 20, inside the window the claim asserts, yet
the walk accepts no marker beyond the first and the decode yields one line:
the position lastMarkerPos + 20 is never examined. -/
theorem wide_window_low_edge_cex :
    100 < c3text.length ∧
    wideHit c3text 2 20 = true ∧
    0 + 20 ≤ 20 ∧ 20 ≤ 0 + 37 + 15 ∧
    longWalk c3text 98 (0 + 37) 2 [0] = .ok [0] ∧
    parseRemittanceInfo (some c3text) =
      .ok [List.replicate 18 'a' ++ '0' :: '2' :: List.replicate 79 'a'] :=
  ⟨by decide, by decide, by decide, by decide, rfl, rfl⟩

/-- C3 amended: in the wide-layout walk the scanned window is
[lastMarkerPos + 22, min (length - 1) (lastMarkerPos + 52)): the lower edge
lastMarkerPos + 20 named by the claim never binds because
expectedNextPos - tolerance = lastMarkerPos + 22 dominates the maximum, and
the upper bound is exclusive; the first position in that window whose
two-digit span equals the expected next sequence number is accepted as the
next marker, and the walk continues from it. -/
theorem wide_step_accepts (text : List Char) (fuel expected lastPos p : Nat) (acc : List Nat)
    (hwide : 100 < text.length)
    (h1 : lastPos + 22 ≤ p)
    (h2 : p < min (text.length - 1) (lastPos + 52))
    (h3 : wideHit text expected p = true)
    (h4 : (List.range p).all
        (fun q => decide (q < lastPos + 22) || !wideHit text expected q) = true) :
    longWalk text (fuel + 1) (lastPos + 37) expected (lastPos :: acc) =
      longWalk text fuel (p + 37) (expected + 1) (p :: lastPos :: acc) := by
  have hnone : ∀ q, lastPos + 22 ≤ q → q < p → wideHit text expected q = false := by
    intro q hq1 hq2
    have hh := List.all_eq_true.mp h4 q (List.mem_range.mpr hq2)
    simp at hh
    rcases hh with hlt | hfalse
    · omega
    · exact hfalse
  have hscan : longScanAux text expected (lastPos + 22)
      (min (text.length - 1) (lastPos + 37 + 15) - (lastPos + 22)) = .ok (some p) := by
    apply longScanAux_finds text expected _ _ p h1 (by omega) h3
      (fun q hq1 hq2 => hnone q hq1 hq2)
  have hss : max ((lastPos :: acc).headD 0 + 20) (lastPos + 37 - 15) = lastPos + 22 := by
    rw [List.headD_cons]
    omega
  rw [longWalk_step, hss, hscan]

/-- Input for the C3 amended witness: a "02" span at the nominal 37 pitch. -/
def c3wit : List Char :=
  "01".toList ++ List.replicate 35 'a' ++ "02".toList ++ List.replicate 64 'a'

/-- C3 amended, witness: one wide-layout walk step on a concrete input. -/
theorem wide_step_accepts_witness :
    longWalk c3wit 98 37 2 [0] = longWalk c3wit 97 74 3 [37, 0] :=
  wide_step_accepts c3wit 97 2 0 37 []
    (by decide) (by decide) (by decide) (by decide) (by decide)

/-! Claim C4: narrow-layout acceptance conditions. -/

theorem shortScanAux_sound (text : List Char) (expected : Nat) :
    ∀ fuel pos p, shortScanAux text expected pos fuel = .ok (some p) →
      pos ≤ p ∧ narrowHit text expected p = true := by
  intro fuel
  induction fuel with
  | zero =>
    intro pos p h
    rw [shortScanAux] at h
    simp at h
  | succ n ih =>
    intro pos p h
    rw [shortScanAux] at h
    split at h
    · exact Except.noConfusion h
    · rename_i c1 hg1
      split at h
      · rename_i hd1
        split at h
        · exact Except.noConfusion h
        · rename_i c2 hg2
          split at h
          · rename_i hd2
            split at h
            · exact Except.noConfusion h
            · rename_i pre hpre
              split at h
              · rename_i hpt
                split at h
                · exact Except.noConfusion h
                · rename_i mv hmv
                  split at h
                  · rename_i hveq
                    have hp : pos = p := Option.some.inj (Except.ok.inj h)
                    subst hp
                    have h1 : pos < text.length := lt_of_getC hg1
                    have hl : pos + 1 < text.length := lt_of_getC hg2
                    have hc1 : charAt text pos = c1 := charAt_of_getC hg1
                    have hc2 : charAt text (pos+1) = c2 := charAt_of_getC hg2
                    have hval : val2 text pos = mv := by
                      have hpi := pyInt_slice hl (by rw [hc1]; exact hd1) (by rw [hc2]; exact hd2)
                      rw [hpi] at hmv
                      exact Except.ok.inj hmv
                    have hpre12 : pos = 0 ∨ pyIsSpace (charAt text (pos - 1)) = true := by
                      by_cases hp0 : (pos == 0) = true
                      · exact Or.inl (by simpa using hp0)
                      · rw [if_neg hp0] at hpre
                        cases hg0 : getC text (pos - 1) with
                        | error e => rw [hg0] at hpre; exact Except.noConfusion hpre
                        | ok c0 =>
                          rw [hg0] at hpre
                          have : pyIsSpace c0 = pre := Except.ok.inj hpre
                          rw [charAt_of_getC hg0, this]
                          exact Or.inr hpt
                    refine ⟨Nat.le_refl pos, ?_⟩
                    rcases hpre12 with hp0 | hsp
                    · subst hp0
                      simp [narrowHit, hval, hc1, hc2, hl, hd1, hd2, hveq]
                    · simp [narrowHit, hval, hc1, hc2, hl, hd1, hd2, hsp, hveq]
                  · obtain ⟨hle, hhit⟩ := ih (pos+1) p h
                    exact ⟨by omega, hhit⟩
              · obtain ⟨hle, hhit⟩ := ih (pos+1) p h
                exact ⟨by omega, hhit⟩
          · obtain ⟨hle, hhit⟩ := ih (pos+1) p h
            exact ⟨by omega, hhit⟩
      · obtain ⟨hle, hhit⟩ := ih (pos+1) p h
        exact ⟨by omega, hhit⟩

/-- C4: in the narrow layout a two-digit pair is accepted as the next marker
only if it equals the expected next sequence number and its first digit is at
absolute position 0 or immediately preceded by whitespace, searching forward
from the scan start; and the Globus example decodes to exactly two lines, the
second being the intact timestamp line. -/
theorem narrow_marker_rule :
    (∀ (text : List Char) (expected pos fuel p : Nat),
        shortScanAux text expected pos fuel = .ok (some p) →
        pos ≤ p ∧ narrowHit text expected p = true) ∧
    parseRemittanceInfo
        (some "01Globus TS Forchheim//Forchheim/DE 022020-01-03T20:07:16 KFN 0 VJ 1234".toList) =
      .ok ["Globus TS Forchheim//Forchheim/DE".toList,
           "2020-01-03T20:07:16 KFN 0 VJ 1234".toList] ∧
    (pyStrip "01Globus TS Forchheim//Forchheim/DE 022020-01-03T20:07:16 KFN 0 VJ 1234".toList).length ≤ 100 :=
  ⟨fun text expected pos fuel p h => shortScanAux_sound text expected fuel pos p h,
   rfl, by decide⟩

/-- C4 witness: the acceptance conditions derived from a successful concrete
narrow-layout scan. -/
theorem narrow_marker_rule_witness :
    (2 : Nat) ≤ 3 ∧ narrowHit "01 02".toList 2 3 = true :=
  narrow_marker_rule.1 "01 02".toList 2 2 2 3 rfl

/-! Claim C5: the line-extraction phase. -/

theorem extractLines_eq_specLines (text : List Char) :
    ∀ ps, extractLines text ps = specLines text ps := by
  intro ps
  induction ps with
  | nil => rfl
  | cons p rest ih =>
    cases rest with
    | nil =>
      simp only [extractLines, specLines]
      cases hline : (pyStrip (slice text (p+2) text.length)).isEmpty <;>
        simp [hline, List.filter]
    | cons q rest' =>
      simp only [specLines] at ih ⊢
      rw [extractLines]
      cases hline : (pyStrip (slice text (p+2) q)).isEmpty <;>
        simp [hline, ih]

/-- C5: each output line is the trimmed substring strictly between a marker's
two digits and the next marker's start (string end for the last marker), with
empty-trimming lines dropped and a fallback to the whole trimmed text when
every line is dropped; and the documented example decodes to two lines. -/
theorem lines_extraction_spec :
    (∀ (text : List Char) (ps : List Nat),
        linesOrFallback text ps =
          (if specLines text ps = [] then [text] else specLines text ps)) ∧
    parseRemittanceInfo (some " 01First  02  Second   03   ".toList) =
      .ok ["First".toList, "Second".toList] := by
  constructor
  · intro text ps
    simp only [linesOrFallback, extractLines_eq_specLines]
    by_cases he : specLines text ps = []
    · simp [he, List.isEmpty_iff]
    · simp [he, List.isEmpty_iff]
  · rfl

/-! Claim C6: layout selection. -/

/-- Input for the C6 counterexample: a narrow-layout body padded with trailing
whitespace so that the raw length is 106 while the trimmed length is 26. -/
def c6raw : List Char := "01aaaaaaaaaaaaaaaaa 02bbbb".toList ++ List.replicate 80 ' '

/-- C6 counterexample: this input's total length exceeds 100, yet the decoder
output is the narrow-layout result and differs from the wide-layout result on
the same trimmed text: layout selection does not follow the input's total
length. -/
theorem layout_total_length_cex :
    100 < c6raw.length ∧
    parseRemittanceInfo (some c6raw) =
      .ok ["aaaaaaaaaaaaaaaaa".toList, "bbbb".toList] ∧
    layoutDecode true (pyStrip c6raw) = .ok ["aaaaaaaaaaaaaaaaa 02bbbb".toList] ∧
    (["aaaaaaaaaaaaaaaaa".toList, "bbbb".toList] : List (List Char)) ≠
      ["aaaaaaaaaaaaaaaaa 02bbbb".toList] :=
  ⟨by decide, rfl, rfl, by decide⟩

/-- C6 amended: layout selection depends only on the length of the
whitespace-trimmed input: a trimmed length above 100 selects the wide-layout
marker search, and a trimmed length at most 100 selects the narrow one. -/
theorem layout_by_trimmed_length (r : List Char)
    (h1 : r ≠ []) (h2 : pyStrip r ≠ []) :
    parseRemittanceInfo (some r) =
      layoutDecode (decide (100 < (pyStrip r).length)) (pyStrip r) := by
  have hre : ¬ (r.isEmpty = true) := fun hr => h1 (List.isEmpty_iff.mp hr)
  have hte : ¬ ((pyStrip r).isEmpty = true) := fun ht => h2 (List.isEmpty_iff.mp ht)
  obtain ⟨o, ho⟩ := findFirst01_total (pyStrip r)
  cases o with
  | none => simp [parseRemittanceInfo, layoutDecode, hre, hte, ho]
  | some fp =>
    by_cases hlen : 100 < (pyStrip r).length
    · simp [parseRemittanceInfo, layoutDecode, hre, hte, ho, hlen]
    · simp [parseRemittanceInfo, layoutDecode, hre, hte, ho, hlen]

/-- C6 amended, witness at a concrete input. -/
theorem layout_by_trimmed_length_witness :
    parseRemittanceInfo (some "01ab".toList) =
      layoutDecode (decide (100 < (pyStrip "01ab".toList).length)) (pyStrip "01ab".toList) :=
  layout_by_trimmed_length "01ab".toList (by decide) (by decide)

/-! Claim C8: the debtor/deptor two-key lookup. -/

/-- C8 counterexample: with "debtor" present and non-null but falsy (an empty
object) and "deptor" present and truthy, the debtor field is built from the
"deptor" value; building it from the "debtor" value would raise KeyError. -/
theorem debtor_precedence_cex :
    dictGet [("debtor".toList, JVal.obj []),
             ("deptor".toList, JVal.obj [("holderName".toList, JVal.s "X".toList)])]
        ("debtor".toList) = some (JVal.obj []) ∧
    JVal.obj [] ≠ JVal.null ∧
    txDebtor [("debtor".toList, JVal.obj []),
              ("deptor".toList, JVal.obj [("holderName".toList, JVal.s "X".toList)])] =
      .ok (some ⟨JVal.s "X".toList, JVal.null, JVal.null⟩) ∧
    AccountInformation.fromDict [] = .error .keyError :=
  ⟨rfl, fun h => JVal.noConfusion h, rfl, rfl⟩

/-- C8 amended: the precedence of the two-key lookup follows Python
truthiness: a truthy "debtor" value wins; when the "debtor" value is absent,
null, or otherwise falsy and the "deptor" value is truthy, the debtor field is
built from the "deptor" value. -/
theorem debtor_precedence (data : List (List Char × JVal)) :
    (truthy (pyGet data ("debtor".toList)) = true →
      txDebtor data =
        (match asObj (pyGet data ("debtor".toList)) with
         | .error e => .error e
         | .ok fs =>
           match AccountInformation.fromDict fs with
           | .error e => .error e
           | .ok ai => .ok (some ai))) ∧
    (truthy (pyGet data ("debtor".toList)) = false →
      truthy (pyGet data ("deptor".toList)) = true →
      txDebtor data =
        (match asObj (pyGetD data ("deptor".toList) (JVal.obj [])) with
         | .error e => .error e
         | .ok fs =>
           match AccountInformation.fromDict fs with
           | .error e => .error e
           | .ok ai => .ok (some ai))) := by
  constructor
  · intro hd
    simp at hd
    simp [txDebtor, pyOr, hd]
  · intro hd hp
    simp at hd hp
    simp [txDebtor, pyOr, hd, hp]

/-- C8 amended, witness: both precedence branches at concrete dicts. -/
theorem debtor_precedence_witness :
    txDebtor [("debtor".toList, JVal.obj [("holderName".toList, JVal.s "A".toList)])] =
      .ok (some ⟨JVal.s "A".toList, JVal.null, JVal.null⟩) ∧
    txDebtor [("deptor".toList, JVal.obj [("holderName".toList, JVal.s "B".toList)])] =
      .ok (some ⟨JVal.s "B".toList, JVal.null, JVal.null⟩) :=
  ⟨(debtor_precedence _).1 rfl, (debtor_precedence _).2 rfl rfl⟩

/-! Claim C10: empty remittanceLines for missing or blank remittanceInfo. -/

/-- C10: when the remittanceInfo key is absent, maps to null, or maps to an
empty or whitespace-only string, the remittanceLines computation of
Transaction.from_dict yields the empty list (not the single-element
fallback). -/
theorem remittance_lines_empty (data : List (List Char × JVal))
    (h : pyGet data ("remittanceInfo".toList) = JVal.null ∨
         ∃ v, pyGet data ("remittanceInfo".toList) = JVal.s v ∧ pyStrip v = []) :
    txRemittanceLines data = .ok [] := by
  rcases h with hn | ⟨v, hv, hs⟩
  · rw [txRemittanceLines, hn]
    rfl
  · rw [txRemittanceLines, hv]
    show parseRemittanceInfo (some v) = .ok []
    by_cases hve : v.isEmpty = true
    · simp [parseRemittanceInfo, hve]
    · have hsv : (pyStrip v).isEmpty = true := by rw [hs]; rfl
      simp [parseRemittanceInfo, hve, hsv]

/-- C10 witness: a dict whose remittanceInfo is a whitespace-only string. -/
theorem remittance_lines_empty_witness :
    txRemittanceLines [("remittanceInfo".toList, JVal.s "   ".toList)] = .ok [] :=
  remittance_lines_empty _ (Or.inr ⟨"   ".toList, rfl, rfl⟩)

end Comdirect
